import Mathlib

/- Shallow embedding of NEATc: src/nn/nn.c and src/neat/population.c.
   C floats are modelled as rationals. The C math-library exp is passed as a
   function parameter. The process-wide rand() stream is passed explicitly as
   natural numbers in [0, RAND_MAX]. Heap blocks, where aliasing matters
   (nn_ffnet_copy), are modelled as entries of a list store. -/

/-- The C library constant RAND_MAX (glibc value), the inclusive upper bound of rand(). -/
def RAND_MAX : ℕ := 2147483647

/-- The C constant FLT_MAX, the largest finite single-precision float,
used by neat_find_worst_fitness as the initial worst fitness. -/
def FLT_MAX : ℚ := (2 ^ 24 - 1) * 2 ^ 104

/-- enum nn_activation from nn.h, as used by nn.c. -/
inductive nn_activation where
  | sigmoid
  | fast_sigmoid
  | relu
deriving DecidableEq, Inhabited

/-- nn_sigmoid from nn.c: saturates below -45 and above 45, otherwise the
logistic function; the C library exp is the parameter e. -/
def nn_sigmoid (e : ℚ → ℚ) (input : ℚ) : ℚ :=
  if input < -45 then 0
  else if input > 45 then 1
  else 1 / (1 + e (-input))

/-- nn_fast_sigmoid from nn.c. -/
def nn_fast_sigmoid (input : ℚ) : ℚ :=
  input / (1 + |input|)

/-- nn_relu from nn.c. -/
def nn_relu (input : ℚ) : ℚ :=
  if input < 0 then 0 else input

/-- nn_rand from nn.c: (float)rand() / (float)(RAND_MAX / range) + start,
with the rand() outcome r passed explicitly. -/
def nn_rand (r : ℕ) (start stop : ℚ) : ℚ :=
  (r : ℚ) / ((RAND_MAX : ℚ) / (stop - start)) + start

/-- nn_activate from nn.c (the default branch of the C switch terminates the
process; the Lean enum has exactly the three valid selectors). -/
def nn_activate (e : ℚ → ℚ) (a : nn_activation) (input : ℚ) : ℚ :=
  match a with
  | .sigmoid => nn_sigmoid e input
  | .fast_sigmoid => nn_fast_sigmoid input
  | .relu => nn_relu input

/-- struct nn_ffnet from nn.h as used by nn.c: topology counts, derived
counts, bias, activation selectors, and the two float buffers that in C live
contiguously behind the struct (weight, then output/scratch). -/
structure nn_ffnet where
  ninputs : ℕ
  nhiddens : ℕ
  noutputs : ℕ
  nhidden_layers : ℕ
  nweights : ℕ
  nneurons : ℕ
  bias : ℚ
  hidden_activation : nn_activation
  output_activation : nn_activation
  weight : List ℚ
  output : List ℚ
deriving DecidableEq, Inhabited

/-- total_weights as computed by nn_ffnet_create. -/
def nn_total_weights (input_count hidden_count output_count hidden_layer_count : ℕ) : ℕ :=
  (if 0 < hidden_layer_count then
    (input_count + 1) * hidden_count +
      (hidden_layer_count - 1) * (hidden_count + 1) * hidden_count
   else 0) +
  (if 0 < hidden_layer_count then hidden_count + 1 else input_count + 1) * output_count

/-- total_neurons as computed by nn_ffnet_create. -/
def nn_total_neurons (input_count hidden_count output_count hidden_layer_count : ℕ) : ℕ :=
  input_count + hidden_count * hidden_layer_count + output_count

/-- nn_ffnet_create from nn.c: memset zeroes both buffers, activations default
to sigmoid, bias defaults to -1.0. -/
def nn_ffnet_create (input_count hidden_count output_count hidden_layer_count : ℕ) : nn_ffnet :=
  { ninputs := input_count
    nhiddens := hidden_count
    noutputs := output_count
    nhidden_layers := hidden_layer_count
    nweights := nn_total_weights input_count hidden_count output_count hidden_layer_count
    nneurons := nn_total_neurons input_count hidden_count output_count hidden_layer_count
    bias := -1
    hidden_activation := .sigmoid
    output_activation := .sigmoid
    weight := List.replicate
      (nn_total_weights input_count hidden_count output_count hidden_layer_count) 0
    output := List.replicate
      (nn_total_neurons input_count hidden_count output_count hidden_layer_count) 0 }

/-- nn_ffnet_randomize from nn.c: every weight slot i gets
nn_rand(-0.5, 0.5) from the next rand() outcome. -/
def nn_ffnet_randomize (rands : ℕ → ℕ) (net : nn_ffnet) : nn_ffnet :=
  { net with weight :=
      (List.range net.nweights).map (fun i => nn_rand (rands i) (-(1 / 2)) (1 / 2)) }

/-- nn_ffnet_set_activations from nn.c. -/
def nn_ffnet_set_activations (net : nn_ffnet) (hidden output : nn_activation) : nn_ffnet :=
  { net with hidden_activation := hidden, output_activation := output }

/-- nn_ffnet_set_bias from nn.c. -/
def nn_ffnet_set_bias (net : nn_ffnet) (bias : ℚ) : nn_ffnet :=
  { net with bias := bias }

/-- Sum of pairwise products, truncated at the shorter list: the inner
weight-times-activation accumulation of nn_ffnet_run. -/
def dotProd : List ℚ → List ℚ → ℚ
  | a :: as, b :: bs => a * b + dotProd as bs
  | _, _ => 0

/-- One layer of nn_ffnet_run: each of n neurons consumes nprev + 1 weights
sequentially from ws (bias weight first), sums bias and the previous layer's
activations, applies the activation, and appends the result. Returns the
layer's activations and the remaining weight stream. -/
def nn_run_layer (e : ℚ → ℚ) (a : nn_activation) (bias : ℚ)
    (prev : List ℚ) (nprev : ℕ) : ℕ → List ℚ → List ℚ × List ℚ
  | 0, ws => ([], ws)
  | n + 1, ws =>
    let sum := dotProd (ws.take (nprev + 1)) (bias :: prev.take nprev)
    let rest := nn_run_layer e a bias prev nprev n (ws.drop (nprev + 1))
    (nn_activate e a sum :: rest.1, rest.2)

/-- The hidden-layer loop of nn_ffnet_run: the first layer reads nprev = ninputs
activations, later layers read nhiddens; the input window advances to the
previous layer's outputs. Returns (all hidden activations in write order, the
last layer's activations, the remaining weight stream). -/
def nn_run_layers (e : ℚ → ℚ) (a : nn_activation) (bias : ℚ) (nhiddens : ℕ) :
    ℕ → List ℚ → ℕ → List ℚ → List ℚ × List ℚ × List ℚ
  | 0, prev, _, ws => ([], prev, ws)
  | n + 1, prev, nprev, ws =>
    let layer := nn_run_layer e a bias prev nprev nhiddens ws
    let rest := nn_run_layers e a bias nhiddens n layer.1 nhiddens layer.2
    (layer.1 ++ rest.1, rest.2.1, rest.2.2)

/-- The body of nn_ffnet_run: copy ninputs inputs into the scratch echo,
run the hidden layers, then the output layer (whose fan-in is ninputs when
there are no hidden layers, nhiddens otherwise). Returns (outputs, the full
scratch contents in write order, the unconsumed tail of the weight buffer). -/
def nn_ffnet_run_core (e : ℚ → ℚ) (net : nn_ffnet) (inputs : List ℚ) :
    List ℚ × List ℚ × List ℚ :=
  let input := inputs.take net.ninputs
  let hidden := nn_run_layers e net.hidden_activation net.bias net.nhiddens
    net.nhidden_layers input net.ninputs net.weight
  let nprev := if net.nhidden_layers = 0 then net.ninputs else net.nhiddens
  let outs := nn_run_layer e net.output_activation net.bias hidden.2.1 nprev
    net.noutputs hidden.2.2
  (outs.1, input ++ hidden.1 ++ outs.1, outs.2)

/-- nn_ffnet_run from nn.c: returns the outputs and the net with its scratch
buffer overwritten. -/
def nn_ffnet_run (e : ℚ → ℚ) (net : nn_ffnet) (inputs : List ℚ) : List ℚ × nn_ffnet :=
  let core := nn_ffnet_run_core e net inputs
  (core.1, { net with output := core.2.1 })

/-- Heap model for nn_ffnet_copy: networks are blocks in a list store,
a handle is an index. malloc of a fresh block is an append. -/
def nn_store_copy (st : List nn_ffnet) (h : ℕ) : List nn_ffnet × ℕ :=
  (st ++ [st.getD h default], st.length)

/-- In-place update of the block at handle h (no-op for a dangling handle). -/
def nn_store_modify (st : List nn_ffnet) (h : ℕ) (f : nn_ffnet → nn_ffnet) :
    List nn_ffnet :=
  match st.get? h with
  | none => st
  | some net => st.set h (f net)

/-- Mutation of one weight slot of the block at handle h, as C code would do
through the net's weight pointer. -/
def nn_store_set_weight (st : List nn_ffnet) (h : ℕ) (i : ℕ) (v : ℚ) :
    List nn_ffnet :=
  nn_store_modify st h (fun net => { net with weight := net.weight.set i v })

/-- nn_ffnet_run through a handle into the store: returns the outputs
(empty for a dangling handle) and the store with the block's scratch updated. -/
def nn_store_run (e : ℚ → ℚ) (st : List nn_ffnet) (h : ℕ) (inputs : List ℚ) :
    List ℚ × List nn_ffnet :=
  match st.get? h with
  | none => ([], st)
  | some net =>
    let r := nn_ffnet_run e net inputs
    (r.1, st.set h r.2)

/-- struct neat_config (neat.h), the fields population.c reads. -/
structure neat_config where
  population_size : ℕ
  genome_minimum_ticks_alive : ℕ
  genome_compatibility_treshold : ℚ
  species_crossover_probability : ℚ
deriving DecidableEq, Inhabited

/-- struct neat_genome as population.c uses it: fitness and time_alive are
read and written directly; gid models the pointer identity of the C heap
object; the embedded network backs neat_run. -/
structure neat_genome where
  gid : ℕ
  innovation : ℕ
  fitness : ℚ
  time_alive : ℕ
  net : nn_ffnet
deriving DecidableEq, Inhabited

/-- struct neat_species as population.c uses it: an ordered list of non-owning
genome references (gids) and the representative reference fixed at creation
(none models the NULL base of neat_create_new_species during speciation). -/
structure neat_species where
  representant : Option ℕ
  genomes : List ℕ
deriving DecidableEq, Inhabited

/-- struct neat_pop from population.c. -/
structure neat_pop where
  conf : neat_config
  solved : Bool
  innovation : ℕ
  next_gid : ℕ
  genomes : List neat_genome
  species : List neat_species
deriving DecidableEq, Inhabited

/-- Modelled from the spec: neat_genome_create (genome.c is not part of the
shown core). A fresh genome with a newly allocated identity, zero fitness and
age, owning one network; the network topology is internal to the genome
collaborator and irrelevant to the population algorithms. -/
def neat_genome_create (conf : neat_config) (innovation gid : ℕ) : neat_genome :=
  { gid := gid
    innovation := innovation
    fitness := 0
    time_alive := 0
    net := nn_ffnet_create 1 0 1 0 }

/-- Modelled from the spec: neat_genome_copy (genome.c is not part of the
shown core). An independent deep clone with a newly allocated identity. -/
def neat_genome_copy (g : neat_genome) (gid : ℕ) : neat_genome :=
  { g with gid := gid }

/-- Modelled from the spec: neat_species_create (species.c is not part of the
shown core). The representative is the reference chosen at creation and the
base, when given, is the first member. -/
def neat_species_create (base : Option ℕ) : neat_species :=
  { representant := base, genomes := base.toList }

/-- Modelled from the spec: neat_species_add_genome (species.c is not part of
the shown core). Appends a non-owning reference. -/
def neat_species_add_genome (s : neat_species) (gid : ℕ) : neat_species :=
  { s with genomes := s.genomes ++ [gid] }

/-- Modelled from the spec: neat_species_remove_genome (species.c is not part
of the shown core). Removes the reference, a no-op if absent. -/
def neat_species_remove_genome (s : neat_species) (gid : ℕ) : neat_species :=
  { s with genomes := s.genomes.erase gid }

/-- Fitness of the live genome a species member reference points at. -/
def neat_fitness_of_gid (p : neat_pop) (gid : ℕ) : ℚ :=
  match p.genomes.find? (fun g => g.gid = gid) with
  | some g => g.fitness
  | none => 0

/-- Modelled from the spec: neat_species_get_average_fitness (species.c is not
part of the shown core). Mean fitness of the current members. -/
def neat_species_get_average_fitness (p : neat_pop) (s : neat_species) : ℚ :=
  ((s.genomes.map (neat_fitness_of_gid p)).sum) / (s.genomes.length : ℚ)

/-- Modelled from the spec: neat_species_select_genitor (species.c is not part
of the shown core). One member chosen uniformly at random among the members,
with the rand() outcome passed explicitly. -/
def neat_species_select_genitor (p : neat_pop) (s : neat_species) (r : ℕ) :
    Option neat_genome :=
  match s.genomes.get? (r % s.genomes.length) with
  | none => none
  | some gid => p.genomes.find? (fun g => g.gid = gid)

/-- neat_replace_genome from population.c: destroy the slot's contents and
store a deep copy of src (the copy gets a fresh heap identity). -/
def neat_replace_genome (p : neat_pop) (dest : ℕ) (src : neat_genome) : neat_pop :=
  { p with
    genomes := p.genomes.set dest (neat_genome_copy src p.next_gid)
    next_gid := p.next_gid + 1 }

/-- The loop body of neat_find_worst_fitness: index i, running worst fitness
(initially FLT_MAX) and the best index found so far. -/
def neat_find_worst_from (min_ticks : ℕ) :
    List neat_genome → ℕ → ℚ → Option ℕ → Option ℕ
  | [], _, _, acc => acc
  | g :: gs, i, worst, acc =>
    if g.fitness < worst ∧ min_ticks < g.time_alive then
      neat_find_worst_from min_ticks gs (i + 1) g.fitness (some i)
    else
      neat_find_worst_from min_ticks gs (i + 1) worst acc

/-- neat_find_worst_fitness from population.c. -/
def neat_find_worst_fitness (p : neat_pop) : Option ℕ :=
  neat_find_worst_from p.conf.genome_minimum_ticks_alive p.genomes 0 FLT_MAX none

/-- neat_get_species_fitness_average from population.c: the unweighted mean,
over all species (empty ones included), of each species' average fitness. -/
def neat_get_species_fitness_average (p : neat_pop) : ℚ :=
  ((p.species.map (neat_species_get_average_fitness p)).sum) / (p.species.length : ℚ)

/-- The index of the first species whose representative the genome is
compatible with, mirroring the scan in neat_speciate_genome; compatibility is
the genome collaborator's distance test, passed as the parameter compat. -/
def neat_first_compatible (compat : ℕ → Option ℕ → Bool) (gid : ℕ) :
    List neat_species → Option ℕ
  | [] => none
  | s :: rest =>
    if compat gid s.representant then some 0
    else (neat_first_compatible compat gid rest).map (fun i => i + 1)

/-- neat_speciate_genome from population.c: add the genome to the first
species with a compatible representative, else create a brand-new species
(neat_create_new_species with a NULL base, then add). -/
def neat_speciate_genome (compat : ℕ → Option ℕ → Bool) (p : neat_pop)
    (genome_id : ℕ) : neat_pop :=
  let g := p.genomes.getD genome_id default
  match neat_first_compatible compat g.gid p.species with
  | some i =>
    { p with species :=
        p.species.set i (neat_species_add_genome (p.species.getD i default) g.gid) }
  | none =>
    { p with species :=
        p.species ++ [neat_species_add_genome (neat_species_create none) g.gid] }

/-- selection_random for the roulette scan: (float)rand() / (float)RAND_MAX. -/
def ratOfRand (r : ℕ) : ℚ :=
  (r : ℚ) / (RAND_MAX : ℚ)

/-- The scan of neat_select_reproduction_species: skip empty species;
otherwise select the first species whose share avg/total is at least the
remaining random mass r, subtracting the share and continuing when it is not.
Returns the index of the selected species. -/
def neat_roulette_select (p : neat_pop) (total : ℚ) :
    List neat_species → ℚ → Option ℕ
  | [], _ => none
  | s :: rest, r =>
    if s.genomes.length = 0 then
      (neat_roulette_select p total rest r).map (fun i => i + 1)
    else
      if r > neat_species_get_average_fitness p s / total then
        (neat_roulette_select p total rest
          (r - neat_species_get_average_fitness p s / total)).map (fun i => i + 1)
      else some 0

/-- neat_select_reproduction_species from population.c: on a selected species,
draw the crossover random; the crossover branch is an unimplemented TODO,
otherwise replace the worst slot with a copy of a genitor; in both cases the
slot's genome is then re-speciated. If no species is selected nothing
happens. -/
def neat_select_reproduction_species (compat : ℕ → Option ℕ → Bool)
    (p : neat_pop) (worst_genome : ℕ) (sel_rand cross_rand gen_rand : ℕ) : neat_pop :=
  let total := neat_get_species_fitness_average p
  match neat_roulette_select p total p.species (ratOfRand sel_rand) with
  | none => p
  | some i =>
    let s := p.species.getD i default
    let p2 :=
      if ratOfRand cross_rand < p.conf.species_crossover_probability then p
      else
        match neat_species_select_genitor p s gen_rand with
        | none => p
        | some g => neat_replace_genome p worst_genome g
    neat_speciate_genome compat p2 worst_genome

/-- neat_create from population.c (with neat_reset_genomes inlined): one base
genome created with innovation 1 and population_size - 1 copies of it, one
starting species created on the base; none when the configured size is not
positive (the C code asserts it). -/
def neat_create (conf : neat_config) : Option neat_pop :=
  if 0 < conf.population_size then
    some
      { conf := conf
        solved := false
        innovation := 2
        next_gid := conf.population_size
        genomes :=
          neat_genome_create conf 1 0 ::
            (List.range (conf.population_size - 1)).map
              (fun k => neat_genome_copy (neat_genome_create conf 1 0) (k + 1))
        species := [neat_species_create (some 0)] }
  else none

/-- The detach step of neat_epoch: remove the worst genome's reference from
every species (absence is a no-op for that species). -/
def neat_remove_worst_from_species (p : neat_pop) (worst : ℕ) : neat_pop :=
  { p with species :=
      p.species.map (fun s => neat_species_remove_genome s (p.genomes.getD worst default).gid) }

/-- neat_epoch from population.c: no-op when no worst genome is found,
otherwise detach the worst genome from all species and run the
fitness-proportionate reproduction step. -/
def neat_epoch (compat : ℕ → Option ℕ → Bool) (p : neat_pop)
    (sel_rand cross_rand gen_rand : ℕ) : neat_pop :=
  match neat_find_worst_fitness p with
  | none => p
  | some w =>
    neat_select_reproduction_species compat
      (neat_remove_worst_from_species p w) w sel_rand cross_rand gen_rand

/-- neat_set_fitness from population.c (an out-of-range id violates the C
assert; the model leaves the population unchanged there). -/
def neat_set_fitness (p : neat_pop) (genome_id : ℕ) (fitness : ℚ) : neat_pop :=
  match p.genomes.get? genome_id with
  | none => p
  | some g => { p with genomes := p.genomes.set genome_id { g with fitness := fitness } }

/-- neat_increase_time_alive from population.c. -/
def neat_increase_time_alive (p : neat_pop) (genome_id : ℕ) : neat_pop :=
  match p.genomes.get? genome_id with
  | none => p
  | some g =>
    { p with genomes := p.genomes.set genome_id { g with time_alive := g.time_alive + 1 } }

/-- neat_run from population.c: delegate to the genome's network; the genome's
scratch buffer is overwritten by the run. -/
def neat_run (e : ℚ → ℚ) (p : neat_pop) (genome_id : ℕ) (inputs : List ℚ) :
    List ℚ × neat_pop :=
  match p.genomes.get? genome_id with
  | none => ([], p)
  | some g =>
    let r := nn_ffnet_run e g.net inputs
    (r.1, { p with genomes := p.genomes.set genome_id { g with net := r.2 } })

/-- Weights consumed by the hidden-layer loop: the first layer has fan-in
nprev, later layers have fan-in nhiddens, each neuron also consumes one bias
weight. -/
def nn_layers_weights (nhiddens : ℕ) : ℕ → ℕ → ℕ
  | 0, _ => 0
  | n + 1, nprev => nhiddens * (nprev + 1) + nn_layers_weights nhiddens n nhiddens

theorem nn_run_layer_snd (e : ℚ → ℚ) (a : nn_activation) (bias : ℚ)
    (prev : List ℚ) (nprev : ℕ) (n : ℕ) (ws : List ℚ) :
    (nn_run_layer e a bias prev nprev n ws).2 = ws.drop (n * (nprev + 1)) := by
  induction n generalizing ws with
  | zero => simp [nn_run_layer]
  | succ n ih =>
    simp only [nn_run_layer, ih, List.drop_drop]
    congr 1
    ring

theorem nn_run_layer_fst_length (e : ℚ → ℚ) (a : nn_activation) (bias : ℚ)
    (prev : List ℚ) (nprev : ℕ) (n : ℕ) (ws : List ℚ) :
    (nn_run_layer e a bias prev nprev n ws).1.length = n := by
  induction n generalizing ws with
  | zero => simp [nn_run_layer]
  | succ n ih => simp [nn_run_layer, ih]

theorem nn_run_layers_snd_snd (e : ℚ → ℚ) (a : nn_activation) (bias : ℚ)
    (nhiddens : ℕ) (n : ℕ) (prev : List ℚ) (nprev : ℕ) (ws : List ℚ) :
    (nn_run_layers e a bias nhiddens n prev nprev ws).2.2 =
      ws.drop (nn_layers_weights nhiddens n nprev) := by
  induction n generalizing prev nprev ws with
  | zero => simp [nn_run_layers, nn_layers_weights]
  | succ n ih =>
    simp only [nn_run_layers, ih, nn_run_layer_snd, List.drop_drop, nn_layers_weights]

theorem nn_run_layers_fst_length (e : ℚ → ℚ) (a : nn_activation) (bias : ℚ)
    (nhiddens : ℕ) (n : ℕ) (prev : List ℚ) (nprev : ℕ) (ws : List ℚ) :
    (nn_run_layers e a bias nhiddens n prev nprev ws).1.length = nhiddens * n := by
  induction n generalizing prev nprev ws with
  | zero => simp [nn_run_layers]
  | succ n ih =>
    simp only [nn_run_layers, List.length_append, nn_run_layer_fst_length, ih]
    ring

theorem nn_layers_weights_self (nhiddens : ℕ) (n : ℕ) :
    nn_layers_weights nhiddens n nhiddens = n * (nhiddens * (nhiddens + 1)) := by
  induction n with
  | zero => simp [nn_layers_weights]
  | succ n ih =>
    rw [nn_layers_weights, ih]
    ring

theorem nn_layers_weights_closed (nhiddens : ℕ) (n : ℕ) (nprev : ℕ) :
    nn_layers_weights nhiddens (n + 1) nprev =
      nhiddens * (nprev + 1) + n * (nhiddens * (nhiddens + 1)) := by
  rw [nn_layers_weights, nn_layers_weights_self]

/-- The weight count consumed by one full run equals nn_total_weights. -/
theorem nn_run_consumed_eq_total (I H O L : ℕ) :
    nn_layers_weights H L I + O * ((if L = 0 then I else H) + 1) =
      nn_total_weights I H O L := by
  cases L with
  | zero =>
    simp only [nn_layers_weights, nn_total_weights, if_pos rfl]
    simp
    ring
  | succ n =>
    rw [nn_layers_weights_closed]
    simp only [nn_total_weights]
    rw [if_neg (Nat.succ_ne_zero n), if_pos (Nat.succ_pos n), if_pos (Nat.succ_pos n),
      Nat.succ_sub_one]
    ring

/-- C4: for every valid topology the created network's weight-buffer length is
(I+1)H + (L-1)(H+1)H + (H+1)O when L > 0 and (I+1)O when L = 0, its scratch
length is I + HL + O, and a full run consumes exactly the whole weight buffer
sequentially (empty remainder) and writes exactly the neuron count of scratch
slots. -/
theorem claim_C4 (e : ℚ → ℚ) (I H O L : ℕ) (ins : List ℚ) (net : nn_ffnet)
    (hI : 0 < I) (hO : 0 < O) (hHL : 0 < H ↔ 0 < L)
    (hins : ins.length = I)
    (hni : net.ninputs = I) (hnh : net.nhiddens = H) (hno : net.noutputs = O)
    (hnl : net.nhidden_layers = L)
    (hw : net.weight.length = nn_total_weights I H O L) :
    ((nn_ffnet_create I H O L).nweights =
      if 0 < L then (I + 1) * H + (L - 1) * (H + 1) * H + (H + 1) * O else (I + 1) * O) ∧
    (nn_ffnet_create I H O L).weight.length = (nn_ffnet_create I H O L).nweights ∧
    (nn_ffnet_create I H O L).nneurons = I + H * L + O ∧
    (nn_ffnet_create I H O L).output.length = (nn_ffnet_create I H O L).nneurons ∧
    (nn_ffnet_run_core e net ins).2.2 = [] ∧
    (nn_ffnet_run_core e net ins).2.1.length = I + H * L + O := by
  refine ⟨?_, ?_, ?_, ?_, ?_, ?_⟩
  · by_cases h : 0 < L
    · simp only [nn_ffnet_create, nn_total_weights, if_pos h]
      try ring
    · simp only [nn_ffnet_create, nn_total_weights, if_neg h]
      try ring
  · simp [nn_ffnet_create]
  · simp [nn_ffnet_create, nn_total_neurons]
  · simp [nn_ffnet_create]
  · have hdrop : (nn_ffnet_run_core e net ins).2.2 =
        net.weight.drop (nn_layers_weights H L I + O * ((if L = 0 then I else H) + 1)) := by
      simp only [nn_ffnet_run_core, nn_run_layer_snd, nn_run_layers_snd_snd, hni, hnh, hno, hnl,
        List.drop_drop]
    rw [hdrop, nn_run_consumed_eq_total, ← hw, List.drop_length]
  · simp only [nn_ffnet_run_core, List.length_append, nn_run_layers_fst_length,
      nn_run_layer_fst_length, List.length_take, hni, hnh, hno, hnl, hins]
    omega

/-- C4 witness: a concrete run of a 2-1-1 single-hidden-layer network consumes
the whole weight buffer. -/
theorem claim_C4_witness :
    (nn_ffnet_run_core (fun _ => 1) (nn_ffnet_create 2 1 1 1) [1, 2]).2.2 = [] :=
  (claim_C4 (fun _ => 1) 2 1 1 1 [1, 2] (nn_ffnet_create 2 1 1 1)
    (by norm_num) (by norm_num) (by norm_num) rfl rfl rfl rfl rfl
    (by simp [nn_ffnet_create])).2.2.2.2.1

/-- C5 counterexample: when rand() returns RAND_MAX (a possible outcome),
nn_rand(-0.5, 0.5) returns exactly 0.5, so randomize can produce a weight for
which w < 0.5 fails; concretely, randomizing a freshly created 1-input
0-hidden 1-output net with every rand() outcome RAND_MAX makes both weights
exactly 1/2. -/
theorem claim_C5_cex :
    nn_rand RAND_MAX (-(1 / 2)) (1 / 2) = 1 / 2 ∧
    ¬ nn_rand RAND_MAX (-(1 / 2)) (1 / 2) < 1 / 2 ∧
    (nn_ffnet_randomize (fun _ => RAND_MAX) (nn_ffnet_create 1 0 1 0)).weight =
      [1 / 2, 1 / 2] := by
  have h : nn_rand RAND_MAX (-(1 / 2)) (1 / 2) = 1 / 2 := by
    norm_num [nn_rand, RAND_MAX]
  refine ⟨h, by rw [h]; exact lt_irrefl _, ?_⟩
  have h2 : nn_total_weights 1 0 1 0 = 2 := by norm_num [nn_total_weights]
  simp only [nn_ffnet_randomize, nn_ffnet_create, h2]
  norm_num [List.range_succ, nn_rand, RAND_MAX]

/-- C5 (amended): randomize assigns every weight a value in the closed
interval [-0.5, 0.5]; the right end is attained when rand() returns RAND_MAX,
so the half-open interval of the original claim is off by the endpoint. -/
theorem claim_C5 (net : nn_ffnet) (rands : ℕ → ℕ) (hr : ∀ n, rands n ≤ RAND_MAX) :
    ∀ w ∈ (nn_ffnet_randomize rands net).weight, -(1 / 2) ≤ w ∧ w ≤ 1 / 2 := by
  intro w hw
  simp only [nn_ffnet_randomize, List.mem_map, List.mem_range] at hw
  obtain ⟨i, -, rfl⟩ := hw
  have hRM : (0 : ℚ) < (RAND_MAX : ℚ) := by norm_num [RAND_MAX]
  have h1 : (0 : ℚ) ≤ (rands i : ℚ) / (RAND_MAX : ℚ) := by positivity
  have h2 : (rands i : ℚ) / (RAND_MAX : ℚ) ≤ 1 := by
    rw [div_le_one hRM]
    exact_mod_cast hr i
  have hval : nn_rand (rands i) (-(1 / 2)) (1 / 2) =
      (rands i : ℚ) / (RAND_MAX : ℚ) - 1 / 2 := by
    norm_num [nn_rand]
    ring
  constructor
  · rw [hval]; linarith
  · rw [hval]; linarith

/-- C5 witness: the bounds hold for the concrete all-zero rand() stream on a
freshly created net. -/
theorem claim_C5_witness :
    -(1 / 2 : ℚ) ≤ nn_rand 0 (-(1 / 2)) (1 / 2) ∧ nn_rand 0 (-(1 / 2)) (1 / 2) ≤ 1 / 2 :=
  claim_C5 (nn_ffnet_create 1 0 1 0) (fun _ => 0) (fun _ => Nat.zero_le _)
    (nn_rand 0 (-(1 / 2)) (1 / 2))
    (by simp [nn_ffnet_randomize, nn_ffnet_create, List.mem_map]
        norm_num [nn_total_weights])

/-- The value each activation function takes at zero input. -/
def nn_activation_at_zero : nn_activation → ℚ
  | .sigmoid => 1 / 2
  | .fast_sigmoid => 0
  | .relu => 0

theorem nn_activate_zero (e : ℚ → ℚ) (a : nn_activation) (he : e 0 = 1) :
    nn_activate e a 0 = nn_activation_at_zero a := by
  cases a with
  | sigmoid =>
    simp only [nn_activate, nn_sigmoid, nn_activation_at_zero, neg_zero, he]
    norm_num
  | fast_sigmoid => simp [nn_activate, nn_fast_sigmoid, nn_activation_at_zero]
  | relu => simp [nn_activate, nn_relu, nn_activation_at_zero]

theorem dotProd_zero_left (as bs : List ℚ) (h : ∀ x ∈ as, x = 0) :
    dotProd as bs = 0 := by
  induction as generalizing bs with
  | nil => cases bs <;> simp [dotProd]
  | cons a as ih =>
    cases bs with
    | nil => simp [dotProd]
    | cons b bs =>
      have ha := h a (List.mem_cons_self a as)
      simp [dotProd, ha, ih bs (fun x hx => h x (List.mem_cons_of_mem a hx))]

theorem nn_run_layer_zero (e : ℚ → ℚ) (a : nn_activation) (bias : ℚ)
    (prev : List ℚ) (nprev n : ℕ) (ws : List ℚ) (hz : ∀ x ∈ ws, x = 0) :
    (nn_run_layer e a bias prev nprev n ws).1 =
      List.replicate n (nn_activate e a 0) := by
  induction n generalizing ws with
  | zero => simp [nn_run_layer]
  | succ n ih =>
    have hsum : dotProd (ws.take (nprev + 1)) (bias :: prev.take nprev) = 0 :=
      dotProd_zero_left _ _ (fun x hx => hz x (List.mem_of_mem_take hx))
    simp only [nn_run_layer, hsum, List.replicate_succ]
    rw [ih _ (fun x hx => hz x (List.mem_of_mem_drop hx))]

theorem nn_run_layers_zero_snd (e : ℚ → ℚ) (a : nn_activation) (bias : ℚ)
    (nhiddens n : ℕ) (prev : List ℚ) (nprev : ℕ) (ws : List ℚ)
    (hz : ∀ x ∈ ws, x = 0) : ∀ x ∈ (nn_run_layers e a bias nhiddens n prev nprev ws).2.2, x = 0 := by
  intro x hx
  rw [nn_run_layers_snd_snd] at hx
  exact hz x (List.mem_of_mem_drop hx)

/-- All-zero weights force every neuron sum to zero, so every output is the
output activation's value at zero, whatever the bias and the inputs are. -/
theorem nn_run_all_zero_weights (e : ℚ → ℚ) (net : nn_ffnet) (inputs : List ℚ)
    (hw : ∀ x ∈ net.weight, x = 0) :
    (nn_ffnet_run e net inputs).1 =
      List.replicate net.noutputs (nn_activate e net.output_activation 0) := by
  have hz : ∀ x ∈ (nn_run_layers e net.hidden_activation net.bias net.nhiddens
      net.nhidden_layers (inputs.take net.ninputs) net.ninputs net.weight).2.2, x = 0 :=
    nn_run_layers_zero_snd _ _ _ _ _ _ _ _ hw
  simp only [nn_ffnet_run, nn_ffnet_run_core]
  exact nn_run_layer_zero _ _ _ _ _ _ _ hz

/-- C6: for a network whose weights are all zero and whose bias is zero, every
output of a run on any inputs equals the output activation's value at zero:
1/2 for the logistic sigmoid, 0 for ReLU, 0 for the fast sigmoid. -/
theorem claim_C6 (e : ℚ → ℚ) (net : nn_ffnet) (inputs : List ℚ)
    (he : e 0 = 1) (hw : ∀ x ∈ net.weight, x = 0) (hb : net.bias = 0) :
    (nn_ffnet_run e net inputs).1 =
      List.replicate net.noutputs (nn_activation_at_zero net.output_activation) ∧
    nn_activation_at_zero .sigmoid = 1 / 2 ∧
    nn_activation_at_zero .relu = 0 ∧
    nn_activation_at_zero .fast_sigmoid = 0 := by
  refine ⟨?_, rfl, rfl, rfl⟩
  rw [nn_run_all_zero_weights e net inputs hw, nn_activate_zero e _ he]

/-- C6 witness: a zero-weight zero-bias 1-0-1 sigmoid network outputs 1/2 on
the concrete input [7]. -/
theorem claim_C6_witness :
    (nn_ffnet_run (fun _ => 1) (nn_ffnet_set_bias (nn_ffnet_create 1 0 1 0) 0) [7]).1 =
      List.replicate 1 ((1 : ℚ) / 2) :=
  (claim_C6 (fun _ => 1) (nn_ffnet_set_bias (nn_ffnet_create 1 0 1 0) 0) [7] rfl
    (by intro x hx
        simp only [nn_ffnet_set_bias, nn_ffnet_create] at hx
        exact List.eq_of_mem_replicate hx)
    rfl).1

/-- C10: a freshly created network has both activation selectors set to the
logistic sigmoid, bias -1.0, and all-zero weight and scratch buffers, and its
first run on any inputs yields 0.5 for every output. -/
theorem claim_C10 (e : ℚ → ℚ) (I H O L : ℕ) (inputs : List ℚ) (he : e 0 = 1) :
    (nn_ffnet_create I H O L).hidden_activation = .sigmoid ∧
    (nn_ffnet_create I H O L).output_activation = .sigmoid ∧
    (nn_ffnet_create I H O L).bias = -1 ∧
    (∀ x ∈ (nn_ffnet_create I H O L).weight, x = 0) ∧
    (∀ x ∈ (nn_ffnet_create I H O L).output, x = 0) ∧
    (nn_ffnet_run e (nn_ffnet_create I H O L) inputs).1 =
      List.replicate O ((1 : ℚ) / 2) := by
  refine ⟨rfl, rfl, rfl, ?_, ?_, ?_⟩
  · intro x hx
    exact List.eq_of_mem_replicate hx
  · intro x hx
    exact List.eq_of_mem_replicate hx
  · rw [nn_run_all_zero_weights e _ inputs (fun x hx => List.eq_of_mem_replicate hx),
      nn_activate_zero e _ he]
    rfl

/-- C10 witness: the first run of a freshly created 1-2-1 network with one
hidden layer on the concrete input [3] returns [1/2]. -/
theorem claim_C10_witness :
    (nn_ffnet_run (fun _ => 1) (nn_ffnet_create 1 2 1 1) [3]).1 =
      List.replicate 1 ((1 : ℚ) / 2) :=
  (claim_C10 (fun _ => 1) 1 2 1 1 [3] rfl).2.2.2.2.2

theorem nn_store_preserve_other (st base : List nn_ffnet) (h ch : ℕ)
    (muts : List (ℕ × ℚ)) (hne : h ≠ ch) (hh : st.get? h = base.get? h) :
    (muts.foldl (fun s m => nn_store_set_weight s ch m.1 m.2) st).get? h =
      base.get? h := by
  induction muts generalizing st with
  | nil => exact hh
  | cons m ms ih =>
    refine ih _ ?_
    rw [← hh]
    simp only [nn_store_set_weight, nn_store_modify]
    cases hg : st.get? ch with
    | none => rfl
    | some net =>
      simp only [List.get?_eq_getElem?] at *
      exact List.getElem?_set_ne (fun hx => hne hx.symm)

/-- C7: a copied network is a bit-for-bit duplicate of the original block
(weights, metadata and scratch included), produces the same outputs on the
same inputs, and mutating any weights of the copy, any number of times, never
changes what the original outputs on a future run. -/
theorem claim_C7 (e : ℚ → ℚ) (st : List nn_ffnet) (h : ℕ) (inputs : List ℚ)
    (muts : List (ℕ × ℚ)) (hh : h < st.length) :
    (nn_store_copy st h).1.get? (nn_store_copy st h).2 = st.get? h ∧
    (nn_store_run e (nn_store_copy st h).1 (nn_store_copy st h).2 inputs).1 =
      (nn_store_run e st h inputs).1 ∧
    (nn_store_run e
        (muts.foldl (fun s m => nn_store_set_weight s (nn_store_copy st h).2 m.1 m.2)
          (nn_store_copy st h).1) h inputs).1 =
      (nn_store_run e st h inputs).1 := by
  have hgetD : st.get? h = some (st.getD h default) := by
    rw [List.getD_eq_getD_get?, List.get?_eq_getElem?, List.getElem?_eq_getElem hh]
    rfl
  have hch : (nn_store_copy st h).1.get? (nn_store_copy st h).2 = st.get? h := by
    simp only [nn_store_copy, List.get?_eq_getElem?]
    rw [List.getElem?_concat_length]
    rw [List.get?_eq_getElem?] at hgetD
    exact hgetD.symm
  refine ⟨hch, ?_, ?_⟩
  · simp only [nn_store_run, hch]
    cases hg : st.get? h <;> simp [hg]
  · have hne : h ≠ (nn_store_copy st h).2 := by
      simp only [nn_store_copy]
      omega
    have hbase : (nn_store_copy st h).1.get? h = st.get? h := by
      simp only [nn_store_copy, List.get?_eq_getElem?]
      exact List.getElem?_append_left hh
    have hpres := nn_store_preserve_other (nn_store_copy st h).1 st h
      (nn_store_copy st h).2 muts hne hbase
    simp only [nn_store_run, hpres]
    cases hg : st.get? h <;> simp [hg]

/-- C7 witness: copying a one-element store and then overwriting the copy's
first weight leaves the original's outputs unchanged on the input [0]. -/
theorem claim_C7_witness :
    (nn_store_run (fun _ => 1)
        ([(0, (1 : ℚ))].foldl
          (fun s m => nn_store_set_weight s (nn_store_copy [nn_ffnet_create 1 0 1 0] 0).2 m.1 m.2)
          (nn_store_copy [nn_ffnet_create 1 0 1 0] 0).1) 0 [0]).1 =
      (nn_store_run (fun _ => 1) [nn_ffnet_create 1 0 1 0] 0 [0]).1 :=
  (claim_C7 (fun _ => 1) [nn_ffnet_create 1 0 1 0] 0 [0] [(0, 1)]
    (by norm_num)).2.2

/-- Full characterization of the worst-fitness scan: either nothing in the
remaining list improves on the running worst fitness and the accumulator is
returned, or the scan returns the first index attaining the minimum fitness
among sufficiently old genomes that beat the running worst fitness. -/
theorem neat_find_worst_from_spec (m : ℕ) (gs : List neat_genome) :
    ∀ (i : ℕ) (worst : ℚ) (acc : Option ℕ),
      (neat_find_worst_from m gs i worst acc = acc ∧
        ∀ j, j < gs.length → m < (gs.getD j default).time_alive →
          worst ≤ (gs.getD j default).fitness) ∨
      (∃ j, j < gs.length ∧
        neat_find_worst_from m gs i worst acc = some (i + j) ∧
        m < (gs.getD j default).time_alive ∧
        (gs.getD j default).fitness < worst ∧
        (∀ k, k < gs.length → m < (gs.getD k default).time_alive →
          (gs.getD j default).fitness ≤ (gs.getD k default).fitness) ∧
        (∀ k, k < j → m < (gs.getD k default).time_alive →
          (gs.getD j default).fitness < (gs.getD k default).fitness)) := by
  induction gs with
  | nil =>
    intro i worst acc
    left
    exact ⟨rfl, by simp⟩
  | cons g gs ih =>
    intro i worst acc
    by_cases h1 : g.fitness < worst ∧ m < g.time_alive
    · have hstep : neat_find_worst_from m (g :: gs) i worst acc =
          neat_find_worst_from m gs (i + 1) g.fitness (some i) := by
        simp [neat_find_worst_from, h1]
      rcases ih (i + 1) g.fitness (some i) with ⟨hres, hmin⟩ | ⟨j, hj, hres, hcand, hlt, hmin, hfirst⟩
      · right
        refine ⟨0, by simp, ?_, ?_, h1.1, ?_, ?_⟩
        · rw [hstep, hres]
          simp
        · simpa using h1.2
        · intro k hk hck
          cases k with
          | zero => simp
          | succ k =>
            simp only [List.getD_cons_succ, List.getD_cons_zero] at *
            exact hmin k (by simpa using hk) hck
        · intro k hk
          omega
      · right
        refine ⟨j + 1, by simpa using hj, ?_, ?_, ?_, ?_, ?_⟩
        · rw [hstep, hres]
          congr 1
          omega
        · simpa [List.getD_cons_succ] using hcand
        · simp only [List.getD_cons_succ]
          exact hlt.trans h1.1
        · intro k hk hck
          cases k with
          | zero =>
            simp only [List.getD_cons_succ, List.getD_cons_zero] at *
            exact le_of_lt hlt
          | succ k =>
            simp only [List.getD_cons_succ] at *
            exact hmin k (by simpa using hk) hck
        · intro k hk hck
          cases k with
          | zero =>
            simp only [List.getD_cons_succ, List.getD_cons_zero] at *
            exact hlt
          | succ k =>
            simp only [List.getD_cons_succ] at *
            exact hfirst k (by omega) hck
    · have hstep : neat_find_worst_from m (g :: gs) i worst acc =
          neat_find_worst_from m gs (i + 1) worst acc := by
        simp [neat_find_worst_from, h1]
      rcases ih (i + 1) worst acc with ⟨hres, hmin⟩ | ⟨j, hj, hres, hcand, hlt, hmin, hfirst⟩
      · left
        refine ⟨by rw [hstep, hres], ?_⟩
        intro j hjl hcj
        cases j with
        | zero =>
          simp only [List.getD_cons_zero] at *
          by_contra hcon
          exact h1 ⟨by linarith, hcj⟩
        | succ j =>
          simp only [List.getD_cons_succ] at *
          exact hmin j (by simpa using hjl) hcj
      · right
        have hwle : ∀ hcg : m < g.time_alive, worst ≤ g.fitness := by
          intro hcg
          by_contra hcon
          exact h1 ⟨by linarith, hcg⟩
        refine ⟨j + 1, by simpa using hj, ?_, ?_, ?_, ?_, ?_⟩
        · rw [hstep, hres]
          congr 1
          omega
        · simpa [List.getD_cons_succ] using hcand
        · simpa [List.getD_cons_succ] using hlt
        · intro k hk hck
          cases k with
          | zero =>
            simp only [List.getD_cons_succ, List.getD_cons_zero] at *
            exact le_of_lt (lt_of_lt_of_le hlt (hwle hck))
          | succ k =>
            simp only [List.getD_cons_succ] at *
            exact hmin k (by simpa using hk) hck
        · intro k hk hck
          cases k with
          | zero =>
            simp only [List.getD_cons_succ, List.getD_cons_zero] at *
            exact lt_of_lt_of_le hlt (hwle hck)
          | succ k =>
            simp only [List.getD_cons_succ] at *
            exact hfirst k (by omega) hck

/-- C1 (amended): the worst-genome scan considers the genomes whose age
strictly exceeds the configured minimum-ticks-alive threshold AND whose
fitness is strictly below FLT_MAX (the scan's initial sentinel); among those
it returns the first index attaining the strictly minimum fitness; when no
genome qualifies the scan finds nothing and epoch returns the population
unchanged. -/
theorem claim_C1 (compat : ℕ → Option ℕ → Bool) (p : neat_pop) (r1 r2 r3 : ℕ) :
    (∀ w, neat_find_worst_fitness p = some w →
      w < p.genomes.length ∧
      p.conf.genome_minimum_ticks_alive < (p.genomes.getD w default).time_alive ∧
      (p.genomes.getD w default).fitness < FLT_MAX ∧
      (∀ k, k < p.genomes.length →
        p.conf.genome_minimum_ticks_alive < (p.genomes.getD k default).time_alive →
        (p.genomes.getD w default).fitness ≤ (p.genomes.getD k default).fitness) ∧
      (∀ k, k < w →
        p.conf.genome_minimum_ticks_alive < (p.genomes.getD k default).time_alive →
        (p.genomes.getD w default).fitness < (p.genomes.getD k default).fitness)) ∧
    (neat_find_worst_fitness p = none →
      (∀ j, j < p.genomes.length →
        p.conf.genome_minimum_ticks_alive < (p.genomes.getD j default).time_alive →
        FLT_MAX ≤ (p.genomes.getD j default).fitness) ∧
      neat_epoch compat p r1 r2 r3 = p) ∧
    ((∃ j, j < p.genomes.length ∧
        p.conf.genome_minimum_ticks_alive < (p.genomes.getD j default).time_alive ∧
        (p.genomes.getD j default).fitness < FLT_MAX) →
      neat_find_worst_fitness p ≠ none) := by
  have H := neat_find_worst_from_spec p.conf.genome_minimum_ticks_alive p.genomes 0 FLT_MAX none
  refine ⟨?_, ?_, ?_⟩
  · intro w hw
    rcases H with ⟨hres, -⟩ | ⟨j, hj, hres, hcand, hlt, hmin, hfirst⟩
    · rw [neat_find_worst_fitness, hres] at hw
      exact absurd hw (by simp)
    · rw [neat_find_worst_fitness, hres] at hw
      have hwj : w = j := by
        injection hw with hw
        omega
      subst hwj
      exact ⟨hj, hcand, hlt, hmin, hfirst⟩
  · intro hn
    rcases H with ⟨hres, hmin⟩ | ⟨j, hj, hres, hcand, hlt, hmin, hfirst⟩
    · refine ⟨hmin, ?_⟩
      rw [neat_epoch, hn]
    · rw [neat_find_worst_fitness, hres] at hn
      exact absurd hn (by simp)
  · rintro ⟨j, hj, hage, hfit⟩ hn
    rcases H with ⟨hres, hmin⟩ | ⟨j2, hj2, hres, -⟩
    · exact absurd (hmin j hj hage) (by linarith)
    · rw [neat_find_worst_fitness, hres] at hn
      exact absurd hn (by simp)

/-- Constantly false compatibility test, a concrete instantiation of the
genome collaborator's distance test. -/
def compat_none : ℕ → Option ℕ → Bool := fun _ _ => false

/-- A genome literal used by the concrete populations below. -/
def genome_mk (gid : ℕ) (fitness : ℚ) (time_alive : ℕ) : neat_genome :=
  { gid := gid, innovation := 1, fitness := fitness, time_alive := time_alive,
    net := nn_ffnet_create 1 0 1 0 }

/-- Concrete configuration: minimum age 0, crossover probability 1. -/
def conf_ex : neat_config :=
  { population_size := 3, genome_minimum_ticks_alive := 0,
    genome_compatibility_treshold := 0, species_crossover_probability := 1 }

/-- Concrete population: fitness values 5, 2, 2, all ages above the
threshold; the worst-genome scan must return index 1 (first of the tie). -/
def pop_c1 : neat_pop :=
  { conf := conf_ex, solved := false, innovation := 2, next_gid := 3,
    genomes := [genome_mk 0 5 1, genome_mk 1 2 1, genome_mk 2 2 1],
    species := [{ representant := some 0, genomes := [0, 1, 2] }] }

theorem pop_c1_finds : neat_find_worst_fitness pop_c1 = some 1 := by
  norm_num [neat_find_worst_fitness, neat_find_worst_from, FLT_MAX, pop_c1, genome_mk, conf_ex]

/-- C1 witness: the scan on the concrete population returns index 1, which is
old enough, below FLT_MAX, minimal, and the first index attaining the
minimum. -/
theorem claim_C1_witness :
    1 < pop_c1.genomes.length ∧
    pop_c1.conf.genome_minimum_ticks_alive < (pop_c1.genomes.getD 1 default).time_alive ∧
    (pop_c1.genomes.getD 1 default).fitness < FLT_MAX ∧
    (∀ k, k < pop_c1.genomes.length →
      pop_c1.conf.genome_minimum_ticks_alive < (pop_c1.genomes.getD k default).time_alive →
      (pop_c1.genomes.getD 1 default).fitness ≤ (pop_c1.genomes.getD k default).fitness) ∧
    (∀ k, k < 1 →
      pop_c1.conf.genome_minimum_ticks_alive < (pop_c1.genomes.getD k default).time_alive →
      (pop_c1.genomes.getD 1 default).fitness < (pop_c1.genomes.getD k default).fitness) :=
  (claim_C1 compat_none pop_c1 0 0 0).1 1 pop_c1_finds

/-- Concrete population for the C1 counterexample: a single genome with
fitness exactly FLT_MAX and age above the threshold. -/
def pop_c1_cex : neat_pop :=
  { conf := conf_ex, solved := false, innovation := 2, next_gid := 1,
    genomes := [genome_mk 0 FLT_MAX 1],
    species := [{ representant := some 0, genomes := [0] }] }

/-- C1 counterexample: the candidate pool in the claim's sense (age strictly
above the threshold) is non-empty — genome 0 qualifies and trivially has the
strictly minimum fitness — yet the scan selects nothing and epoch leaves the
population unchanged, because the scan's strict comparison against the
FLT_MAX sentinel also rejects any candidate whose fitness is not below
FLT_MAX. -/
theorem claim_C1_cex :
    0 < pop_c1_cex.genomes.length ∧
    pop_c1_cex.conf.genome_minimum_ticks_alive <
      (pop_c1_cex.genomes.getD 0 default).time_alive ∧
    neat_find_worst_fitness pop_c1_cex = none ∧
    neat_epoch compat_none pop_c1_cex 0 0 0 = pop_c1_cex := by
  have hfind : neat_find_worst_fitness pop_c1_cex = none := by
    norm_num [neat_find_worst_fitness, neat_find_worst_from, FLT_MAX, pop_c1_cex,
      genome_mk, conf_ex]
  refine ⟨by norm_num [pop_c1_cex], by norm_num [pop_c1_cex, genome_mk, conf_ex], hfind, ?_⟩
  rw [neat_epoch, hfind]

/-- The share of one species in the roulette scan: its average fitness
divided by the unweighted mean of all species' average fitnesses. -/
def neat_species_share (p : neat_pop) (total : ℚ) (s : neat_species) : ℚ :=
  neat_species_get_average_fitness p s / total

/-- Sum of the shares of the non-empty species among the first n entries,
the random mass consumed before the scan reaches index n. -/
def neat_share_sum (p : neat_pop) (total : ℚ) : List neat_species → ℕ → ℚ
  | _, 0 => 0
  | [], _ + 1 => 0
  | s :: rest, n + 1 =>
    (if s.genomes.length = 0 then 0 else neat_species_share p total s) +
      neat_share_sum p total rest n

/-- Characterization of the roulette scan: a selected index points at a
non-empty species, the random mass left when the scan reaches it is at most
its share, and every earlier non-empty species had a share strictly below the
mass remaining there. -/
theorem neat_roulette_select_spec (p : neat_pop) (total : ℚ) (ss : List neat_species) :
    ∀ (r : ℚ) (i : ℕ), neat_roulette_select p total ss r = some i →
      i < ss.length ∧
      (ss.getD i default).genomes.length ≠ 0 ∧
      r - neat_share_sum p total ss i ≤ neat_species_share p total (ss.getD i default) ∧
      ∀ j, j < i → (ss.getD j default).genomes.length ≠ 0 →
        neat_species_share p total (ss.getD j default) < r - neat_share_sum p total ss j := by
  induction ss with
  | nil =>
    intro r i hi
    exact absurd hi (by simp [neat_roulette_select])
  | cons s rest ih =>
    intro r i hi
    by_cases hz : s.genomes.length = 0
    · rw [neat_roulette_select, if_pos hz] at hi
      obtain ⟨i2, hi2, rfl⟩ := Option.map_eq_some'.mp hi
      obtain ⟨hlen, hne, hle, hfirst⟩ := ih r i2 hi2
      refine ⟨by simpa using hlen, by simpa using hne, ?_, ?_⟩
      · simpa [neat_share_sum, hz] using hle
      · intro j hj hnej
        cases j with
        | zero => exact absurd (by simpa using hz) hnej
        | succ j =>
          simp only [List.getD_cons_succ, neat_share_sum, if_pos hz, zero_add] at *
          exact hfirst j (by omega) hnej
    · rw [neat_roulette_select, if_neg hz] at hi
      by_cases hr : r > neat_species_get_average_fitness p s / total
      · rw [if_pos hr] at hi
        obtain ⟨i2, hi2, rfl⟩ := Option.map_eq_some'.mp hi
        obtain ⟨hlen, hne, hle, hfirst⟩ :=
          ih (r - neat_species_get_average_fitness p s / total) i2 hi2
        refine ⟨by simpa using hlen, by simpa using hne, ?_, ?_⟩
        · simp only [neat_share_sum, if_neg hz, List.getD_cons_succ, neat_species_share] at *
          have : r - (neat_species_get_average_fitness p s / total +
              neat_share_sum p total rest i2) =
              r - neat_species_get_average_fitness p s / total -
                neat_share_sum p total rest i2 := by ring
          rw [this]
          exact hle
        · intro j hj hnej
          cases j with
          | zero =>
            simp only [List.getD_cons_zero, neat_share_sum, neat_species_share] at *
            linarith
          | succ j =>
            simp only [List.getD_cons_succ, neat_share_sum, if_neg hz,
              neat_species_share] at *
            have hgoal := hfirst j (by omega) hnej
            linarith
      · rw [if_neg hr] at hi
        injection hi with hi
        subst hi
        refine ⟨by simp, by simpa using hz, ?_, ?_⟩
        · simp only [neat_share_sum, List.getD_cons_zero, neat_species_share]
          linarith [not_lt.mp hr]
        · intro j hj
          omega

/-- C2 (amended): the roulette draw r = rand()/RAND_MAX lies in the CLOSED
interval [0,1] (r = 1 occurs when rand() returns RAND_MAX); the scan skips
empty species and selects the first species whose share, average fitness over
the unweighted mean of all species' averages, is at least the random mass
remaining at it, subtracting each passed share; when no species is selected
the reproduction step leaves the population (and thus the detached worst
genome's slot) unchanged. -/
theorem claim_C2 (compat : ℕ → Option ℕ → Bool) (p : neat_pop)
    (w sel_rand cross_rand gen_rand : ℕ) (hsel : sel_rand ≤ RAND_MAX) :
    (0 ≤ ratOfRand sel_rand ∧ ratOfRand sel_rand ≤ 1) ∧
    (∀ i, neat_roulette_select p (neat_get_species_fitness_average p) p.species
        (ratOfRand sel_rand) = some i →
      i < p.species.length ∧
      (p.species.getD i default).genomes.length ≠ 0 ∧
      ratOfRand sel_rand -
          neat_share_sum p (neat_get_species_fitness_average p) p.species i ≤
        neat_species_share p (neat_get_species_fitness_average p)
          (p.species.getD i default) ∧
      (∀ j, j < i → (p.species.getD j default).genomes.length ≠ 0 →
        neat_species_share p (neat_get_species_fitness_average p)
            (p.species.getD j default) <
          ratOfRand sel_rand -
            neat_share_sum p (neat_get_species_fitness_average p) p.species j)) ∧
    (neat_roulette_select p (neat_get_species_fitness_average p) p.species
        (ratOfRand sel_rand) = none →
      neat_select_reproduction_species compat p w sel_rand cross_rand gen_rand = p) := by
  refine ⟨⟨?_, ?_⟩, ?_, ?_⟩
  · unfold ratOfRand
    positivity
  · unfold ratOfRand
    rw [div_le_one (by norm_num [RAND_MAX])]
    exact_mod_cast hsel
  · intro i hi
    exact neat_roulette_select_spec p (neat_get_species_fitness_average p) p.species
      (ratOfRand sel_rand) i hi
  · intro hn
    rw [neat_select_reproduction_species]
    simp only [hn]

/-- Concrete population for C2: one non-empty species whose members all have
fitness 0, so total average and share are 0 and a draw of r = 1 selects
nothing. -/
def pop_c2 : neat_pop :=
  { conf := conf_ex, solved := false, innovation := 2, next_gid := 2,
    genomes := [genome_mk 0 0 1, genome_mk 1 0 1],
    species := [{ representant := some 0, genomes := [0, 1] }] }

/-- C2 witness: the draw bounds at the maximal rand() outcome, and the
no-selection case on the concrete population leaves it unchanged. -/
theorem claim_C2_witness :
    (0 ≤ ratOfRand RAND_MAX ∧ ratOfRand RAND_MAX ≤ 1) ∧
    neat_select_reproduction_species compat_none pop_c2 0 RAND_MAX 0 0 = pop_c2 :=
  ⟨(claim_C2 compat_none pop_c2 0 RAND_MAX 0 0 (le_refl RAND_MAX)).1,
   (claim_C2 compat_none pop_c2 0 RAND_MAX 0 0 (le_refl RAND_MAX)).2.2
     (by norm_num [neat_roulette_select, neat_get_species_fitness_average,
       neat_species_get_average_fitness, neat_fitness_of_gid, ratOfRand, RAND_MAX,
       pop_c2, genome_mk, conf_ex, List.find?])⟩

/-- C2 counterexample: the claim says the selection draw lies in [0,1), but
rand() can return RAND_MAX, and then selection_random = RAND_MAX/RAND_MAX is
exactly 1, not less than 1. -/
theorem claim_C2_cex :
    ratOfRand RAND_MAX = 1 ∧ ¬ ratOfRand RAND_MAX < 1 := by
  constructor
  · norm_num [ratOfRand, RAND_MAX]
  · norm_num [ratOfRand, RAND_MAX]

/-- C3 (amended): create with positive population size N yields exactly N
genomes, slot 0 being the freshly created base genome and every other slot a
deep copy of it (same contents, fresh identity), and exactly one species
whose representative and single member are the base genome; the starting
species does not contain the other N - 1 genomes. -/
theorem claim_C3 (conf : neat_config) (h : 0 < conf.population_size) :
    ∃ p, neat_create conf = some p ∧
      p.genomes.length = conf.population_size ∧
      p.genomes.getD 0 default = neat_genome_create conf 1 0 ∧
      (∀ i, 0 < i → i < p.genomes.length →
        p.genomes.getD i default = neat_genome_copy (p.genomes.getD 0 default) i) ∧
      p.species.length = 1 ∧
      (p.species.getD 0 default).representant = some ((p.genomes.getD 0 default).gid) ∧
      (p.species.getD 0 default).genomes = [(p.genomes.getD 0 default).gid] := by
  rw [neat_create, if_pos h]
  refine ⟨_, rfl, ?_, rfl, ?_, rfl, rfl, rfl⟩
  · simp
    omega
  · intro i h0 hl
    simp only [List.length_cons, List.length_map, List.length_range] at hl
    cases i with
    | zero => omega
    | succ k =>
      have hk : k < conf.population_size - 1 := by omega
      simp only [List.getD_eq_getD_get?, List.get?_eq_getElem?, List.getElem?_cons_succ,
        List.getElem?_cons_zero, List.getElem?_map, List.getElem?_range hk]
      rfl

/-- Concrete configuration with population size 2 for the C3 counterexample. -/
def conf_c3 : neat_config :=
  { population_size := 2, genome_minimum_ticks_alive := 0,
    genome_compatibility_treshold := 0, species_crossover_probability := 0 }

/-- The population created from conf_c3. -/
def pop_c3 : neat_pop := (neat_create conf_c3).getD default

/-- C3 counterexample: with population size 2, create yields 2 genomes and
one species, but that species contains exactly 1 genome (the base), not all
N = 2 of them, contradicting the claim that the single species contains all N
genomes. -/
theorem claim_C3_cex :
    neat_create conf_c3 = some pop_c3 ∧
    pop_c3.genomes.length = 2 ∧
    pop_c3.species.length = 1 ∧
    (pop_c3.species.getD 0 default).genomes.length = 1 := by
  have hc : neat_create conf_c3 = some pop_c3 := by
    rw [pop_c3, neat_create, if_pos (by norm_num [conf_c3])]
    rfl
  refine ⟨hc, ?_, ?_, ?_⟩
  · rw [pop_c3]
    norm_num [neat_create, conf_c3, neat_genome_create, neat_genome_copy]
  · rw [pop_c3]
    norm_num [neat_create, conf_c3, neat_species_create]
  · rw [pop_c3]
    norm_num [neat_create, conf_c3, neat_species_create]

/-- C3 witness: the amended claim instantiated at population size 2. -/
theorem claim_C3_witness :
    ∃ p, neat_create conf_c3 = some p ∧
      p.genomes.length = conf_c3.population_size ∧
      p.genomes.getD 0 default = neat_genome_create conf_c3 1 0 ∧
      (∀ i, 0 < i → i < p.genomes.length →
        p.genomes.getD i default = neat_genome_copy (p.genomes.getD 0 default) i) ∧
      p.species.length = 1 ∧
      (p.species.getD 0 default).representant = some ((p.genomes.getD 0 default).gid) ∧
      (p.species.getD 0 default).genomes = [(p.genomes.getD 0 default).gid] :=
  claim_C3 conf_c3 (by norm_num [conf_c3])

theorem neat_speciate_genomes_eq (compat : ℕ → Option ℕ → Bool) (p : neat_pop)
    (i : ℕ) : (neat_speciate_genome compat p i).genomes = p.genomes := by
  rw [neat_speciate_genome]
  cases neat_first_compatible compat (p.genomes.getD i default).gid p.species <;> rfl

theorem neat_select_repro_genomes (compat : ℕ → Option ℕ → Bool) (p : neat_pop)
    (w r1 r2 r3 : ℕ) :
    (neat_select_reproduction_species compat p w r1 r2 r3).genomes = p.genomes ∨
    ∃ g, (neat_select_reproduction_species compat p w r1 r2 r3).genomes =
      p.genomes.set w g := by
  rw [neat_select_reproduction_species]
  cases hsel : neat_roulette_select p (neat_get_species_fitness_average p) p.species
      (ratOfRand r1) with
  | none => exact Or.inl rfl
  | some i =>
    dsimp only
    by_cases hc : ratOfRand r2 < p.conf.species_crossover_probability
    · rw [if_pos hc]
      exact Or.inl (neat_speciate_genomes_eq compat p w)
    · rw [if_neg hc]
      cases hg : neat_species_select_genitor p (p.species.getD i default) r3 with
      | none => exact Or.inl (neat_speciate_genomes_eq compat p w)
      | some g =>
        right
        refine ⟨neat_genome_copy g p.next_gid, ?_⟩
        rw [neat_speciate_genomes_eq]
        rfl

/-- C8: the genome-slot count is invariant under run, setFitness,
increaseTimeAlive and epoch, and one epoch call changes the contents of at
most one genome slot (the genome list is unchanged or a single List.set). -/
theorem claim_C8 (e : ℚ → ℚ) (compat : ℕ → Option ℕ → Bool) (p : neat_pop)
    (genome_id : ℕ) (v : ℚ) (ins : List ℚ) (r1 r2 r3 : ℕ) :
    (neat_set_fitness p genome_id v).genomes.length = p.genomes.length ∧
    (neat_increase_time_alive p genome_id).genomes.length = p.genomes.length ∧
    (neat_run e p genome_id ins).2.genomes.length = p.genomes.length ∧
    (neat_epoch compat p r1 r2 r3).genomes.length = p.genomes.length ∧
    ((neat_epoch compat p r1 r2 r3).genomes = p.genomes ∨
      ∃ w g, (neat_epoch compat p r1 r2 r3).genomes = p.genomes.set w g) := by
  have hframe : (neat_epoch compat p r1 r2 r3).genomes = p.genomes ∨
      ∃ w g, (neat_epoch compat p r1 r2 r3).genomes = p.genomes.set w g := by
    rw [neat_epoch]
    cases hf : neat_find_worst_fitness p with
    | none => exact Or.inl rfl
    | some w =>
      have hdet : (neat_remove_worst_from_species p w).genomes = p.genomes := rfl
      rcases neat_select_repro_genomes compat (neat_remove_worst_from_species p w)
          w r1 r2 r3 with h | ⟨g, h⟩
      · exact Or.inl (h.trans hdet)
      · exact Or.inr ⟨w, g, by rw [h, hdet]⟩
  refine ⟨?_, ?_, ?_, ?_, hframe⟩
  · rw [neat_set_fitness]
    cases p.genomes.get? genome_id <;> simp
  · rw [neat_increase_time_alive]
    cases p.genomes.get? genome_id <;> simp
  · rw [neat_run]
    cases p.genomes.get? genome_id <;> simp
  · rcases hframe with h | ⟨w, g, h⟩
    · rw [h]
    · rw [h, List.length_set]

theorem neat_first_compatible_some (compat : ℕ → Option ℕ → Bool) (gid : ℕ)
    (ss : List neat_species) :
    ∀ i, neat_first_compatible compat gid ss = some i →
      i < ss.length ∧ compat gid (ss.getD i default).representant = true ∧
      ∀ j, j < i → compat gid (ss.getD j default).representant = false := by
  induction ss with
  | nil =>
    intro i hi
    exact absurd hi (by simp [neat_first_compatible])
  | cons s rest ih =>
    intro i hi
    by_cases hc : compat gid s.representant
    · rw [neat_first_compatible, if_pos hc] at hi
      injection hi with hi
      subst hi
      exact ⟨by simp, hc, by omega⟩
    · rw [neat_first_compatible, if_neg hc] at hi
      obtain ⟨i2, hi2, rfl⟩ := Option.map_eq_some'.mp hi
      obtain ⟨hlen, hcomp, hfirst⟩ := ih i2 hi2
      refine ⟨by simpa using hlen, by simpa using hcomp, ?_⟩
      intro j hj
      cases j with
      | zero => simpa using Bool.not_eq_true _ ▸ (by simpa using hc)
      | succ j =>
        simp only [List.getD_cons_succ]
        exact hfirst j (by omega)

theorem neat_first_compatible_none (compat : ℕ → Option ℕ → Bool) (gid : ℕ)
    (ss : List neat_species) (h : neat_first_compatible compat gid ss = none) :
    ∀ j, j < ss.length → compat gid (ss.getD j default).representant = false := by
  induction ss with
  | nil =>
    intro j hj
    simp at hj
  | cons s rest ih =>
    by_cases hc : compat gid s.representant
    · rw [neat_first_compatible, if_pos hc] at h
      exact absurd h (by simp)
    · rw [neat_first_compatible, if_neg hc] at h
      intro j hj
      cases j with
      | zero => simpa using hc
      | succ j =>
        simp only [List.getD_cons_succ]
        exact ih (by simpa using h) j (by simpa using hj)

/-- C9: when epoch finds a worst genome, the roulette selects some species and
the crossover draw succeeds (random below the crossover probability), no
genome slot is destroyed or replaced — the genome array is left exactly as it
was — yet the detached worst genome is still re-speciated: it is appended to
the first species of the detached population whose representative it is
compatible with, or to a brand-new species otherwise. -/
theorem claim_C9 (compat : ℕ → Option ℕ → Bool) (p : neat_pop)
    (w r1 r2 r3 : ℕ)
    (hw : neat_find_worst_fitness p = some w)
    (hsel : ∃ i, neat_roulette_select (neat_remove_worst_from_species p w)
      (neat_get_species_fitness_average (neat_remove_worst_from_species p w))
      (neat_remove_worst_from_species p w).species (ratOfRand r1) = some i)
    (hcross : ratOfRand r2 < p.conf.species_crossover_probability) :
    (neat_epoch compat p r1 r2 r3).genomes = p.genomes ∧
    ((∃ i, i < (neat_remove_worst_from_species p w).species.length ∧
        compat (p.genomes.getD w default).gid
          (((neat_remove_worst_from_species p w).species.getD i default).representant) = true ∧
        (∀ j, j < i → compat (p.genomes.getD w default).gid
          (((neat_remove_worst_from_species p w).species.getD j default).representant) = false) ∧
        (neat_epoch compat p r1 r2 r3).species =
          (neat_remove_worst_from_species p w).species.set i
            (neat_species_add_genome
              ((neat_remove_worst_from_species p w).species.getD i default)
              (p.genomes.getD w default).gid)) ∨
      ((∀ j, j < (neat_remove_worst_from_species p w).species.length →
          compat (p.genomes.getD w default).gid
            (((neat_remove_worst_from_species p w).species.getD j default).representant) = false) ∧
        (neat_epoch compat p r1 r2 r3).species =
          (neat_remove_worst_from_species p w).species ++
            [neat_species_add_genome (neat_species_create none)
              (p.genomes.getD w default).gid])) := by
  obtain ⟨i, hi⟩ := hsel
  have hgen : (neat_remove_worst_from_species p w).genomes = p.genomes := rfl
  have hconf : (neat_remove_worst_from_species p w).conf = p.conf := rfl
  have hepoch : neat_epoch compat p r1 r2 r3 =
      neat_speciate_genome compat (neat_remove_worst_from_species p w) w := by
    rw [neat_epoch, hw]
    unfold neat_select_reproduction_species
    dsimp only
    rw [hi]
    dsimp only
    rw [hconf, if_pos hcross]
  constructor
  · rw [hepoch, neat_speciate_genomes_eq, hgen]
  · rw [hepoch, neat_speciate_genome, hgen]
    cases hfc : neat_first_compatible compat (p.genomes.getD w default).gid
        (neat_remove_worst_from_species p w).species with
    | some k =>
      obtain ⟨hlen, hcomp, hfirst⟩ := neat_first_compatible_some compat
        (p.genomes.getD w default).gid (neat_remove_worst_from_species p w).species k hfc
      exact Or.inl ⟨k, hlen, hcomp, hfirst, rfl⟩
    | none =>
      exact Or.inr ⟨neat_first_compatible_none compat (p.genomes.getD w default).gid
        (neat_remove_worst_from_species p w).species hfc, rfl⟩

/-- Constantly true compatibility test, a concrete instantiation of the
genome collaborator's distance test. -/
def compat_all : ℕ → Option ℕ → Bool := fun _ _ => true

/-- Concrete population for the C9 witness: two genomes, one species holding
both; with crossover probability 1 every selected epoch takes the crossover
branch. -/
def pop_c9 : neat_pop :=
  { conf := conf_ex, solved := false, innovation := 2, next_gid := 2,
    genomes := [genome_mk 0 1 1, genome_mk 1 2 1],
    species := [{ representant := some 0, genomes := [0, 1] }] }

theorem pop_c9_finds : neat_find_worst_fitness pop_c9 = some 0 := by
  norm_num [neat_find_worst_fitness, neat_find_worst_from, FLT_MAX, pop_c9, genome_mk, conf_ex]

theorem pop_c9_selects :
    neat_roulette_select (neat_remove_worst_from_species pop_c9 0)
      (neat_get_species_fitness_average (neat_remove_worst_from_species pop_c9 0))
      (neat_remove_worst_from_species pop_c9 0).species (ratOfRand 0) = some 0 := by
  norm_num [neat_roulette_select, neat_get_species_fitness_average,
    neat_species_get_average_fitness, neat_fitness_of_gid, ratOfRand, RAND_MAX,
    neat_remove_worst_from_species, neat_species_remove_genome, List.erase,
    pop_c9, genome_mk, conf_ex, List.find?]

/-- C9 witness: on the concrete population the crossover-branch epoch leaves
the genome array unchanged. -/
theorem claim_C9_witness :
    (neat_epoch compat_all pop_c9 0 0 0).genomes = pop_c9.genomes :=
  (claim_C9 compat_all pop_c9 0 0 0 0 pop_c9_finds ⟨0, pop_c9_selects⟩
    (by norm_num [ratOfRand, RAND_MAX, pop_c9, conf_ex])).1
